import Mathlib

/-!
Verification of the note-taking application in `src/App.tsx` against its
specification.

The whole program is one React component over an `expo-sqlite` database.
The embedding below has two layers:

* the persistence gateway: an SQLite table `notes(id INTEGER PRIMARY KEY
  AUTOINCREMENT, note TEXT)` is modelled as a list of rows plus the
  AUTOINCREMENT sequence counter, and each of the four SQL statements in
  the source becomes a function on that state (`dbInsert`, `dbUpdate`,
  `dbDelete`, `dbSearch`).  SQLite semantics that the statements rely on
  are embedded faithfully: `LIKE` with the `%term%` pattern built by the
  source is a wildcard matcher that compares ASCII letters
  case-insensitively (SQLite `LIKE` folds A-Z to a-z by default), `ORDER
  BY id DESC` sorts, `LIMIT`/`OFFSET` take/drop, and AUTOINCREMENT hands
  out `seq` and bumps it.

* the component: the `useState` hooks become the fields of `AppState`,
  and each event handler of the source becomes a function of the render
  snapshot.  React semantics are modelled precisely: an event handler is
  a closure created at render time, so when a handler calls `setX(...)`
  and then `loadNotes()`, the `loadNotes` it calls still reads the
  `search`/`page`/`notes` values of the *render snapshot*, not the values
  just scheduled with `setX`.  Each handler is therefore one function
  from the snapshot (and the database, which *is* mutated in place) to
  the committed next state.  The `!db` guards of the source are the
  always-false case here since the database handle exists after startup.
-/

/-- One row of the `notes` table (`SELECT *` returns both columns). -/
structure Note where
  id : Nat
  note : String
deriving DecidableEq

/-- The `notes` table together with the AUTOINCREMENT sequence: `seq` is
the id the next `INSERT` will assign (AUTOINCREMENT never reuses ids,
even after deletes). -/
structure DB where
  rows : List Note
  seq : Nat
deriving DecidableEq

/-- The freshly created table (`CREATE TABLE IF NOT EXISTS ...`);
AUTOINCREMENT assigns ids starting at 1. -/
def dbEmpty : DB := ⟨[], 1⟩

/-- `INSERT INTO notes (note) VALUES (?)`. -/
def dbInsert (db : DB) (text : String) : DB :=
  ⟨db.rows ++ [⟨db.seq, text⟩], db.seq + 1⟩

/-- `UPDATE notes SET note = ? WHERE id = ?`. -/
def dbUpdate (db : DB) (i : Nat) (text : String) : DB :=
  ⟨db.rows.map (fun r => if r.id = i then ⟨r.id, text⟩ else r), db.seq⟩

/-- `DELETE FROM notes WHERE id = ?`. -/
def dbDelete (db : DB) (i : Nat) : DB :=
  ⟨db.rows.filter (fun r => r.id != i), db.seq⟩

/-- SQLite `LIKE` comparison folds the ASCII letters A-Z to lower case
(its default, `case_sensitive_like` off); all other characters compare
verbatim. -/
def foldChar (c : Char) : Char :=
  if 'A' ≤ c ∧ c ≤ 'Z' then Char.ofNat (c.toNat + 32) else c

/-- Helper for the `%` wildcard: does `f` accept some suffix of the
string? -/
def anySuffix (f : List Char → Bool) : List Char → Bool
  | [] => f []
  | d :: s => f (d :: s) || anySuffix f s

/-- The SQLite `LIKE` pattern matcher: `%` matches any sequence, `_` any
single character, and every other pattern character matches one text
character up to ASCII case folding. -/
def likeM : List Char → List Char → Bool
  | [], s => s.isEmpty
  | c :: p, s =>
    if c = '%' then anySuffix (likeM p) s
    else
      match s with
      | [] => false
      | d :: s' => (c == '_' || foldChar c == foldChar d) && likeM p s'

/-- The pattern the source builds for its query argument: `` `%${search}%` ``. -/
def likePat (term : String) : List Char :=
  '%' :: (term.toList ++ ['%'])

/-- `ORDER BY id DESC` as a relation on rows. -/
@[reducible] def rDesc (a b : Note) : Prop := b.id ≤ a.id

instance : DecidableRel rDesc := fun a b => inferInstanceAs (Decidable (b.id ≤ a.id))

instance : IsTotal Note rDesc := ⟨fun a b => Or.symm (Nat.le_total a.id b.id)⟩

instance : IsTrans Note rDesc := ⟨fun _ _ _ hab hbc => Nat.le_trans hbc hab⟩

/-- Sorting rows by id descending (`ORDER BY id DESC`). -/
def sortDesc (l : List Note) : List Note := List.insertionSort rDesc l

/-- `SELECT * FROM notes WHERE note LIKE ? ORDER BY id DESC LIMIT ? OFFSET ?`
with arguments `(%term%, limit, offset)`. -/
def dbSearch (db : DB) (term : String) (limit offset : Nat) : List Note :=
  ((sortDesc (db.rows.filter (fun r => likeM (likePat term) r.note.toList))).drop offset).take limit

/-- JavaScript `String.prototype.trim` whitespace set (the characters
that can occur in this app's ASCII/latin inputs). -/
def jsWS (c : Char) : Bool :=
  c == ' ' || c == '\t' || c == '\n' || c == '\r' ||
    c == '\x0b' || c == '\x0c' || c == ' '

/-- JavaScript `String.prototype.trim`. -/
def jsTrim (s : String) : String :=
  ⟨((s.toList.dropWhile jsWS).reverse.dropWhile jsWS).reverse⟩

/-- JavaScript truthiness of the `editingNoteId : number | null` value:
`null` and `0` are falsy. -/
def jsTruthy : Option Nat → Bool
  | none => false
  | some n => n != 0

/-- The `useState` hooks of the component, in source order. -/
structure AppState where
  notes : List Note
  search : String
  modalVisible : Bool
  modalDeleteVisible : Bool
  currentNote : String
  editingNoteId : Option Nat
  deleteNoteId : Option Nat
  page : Nat
deriving DecidableEq

/-- `const limit = 50`. -/
def limit : Nat := 50

/-- The value `loadNotes` passes to `setNotes` when invoked from an event
handler: it is a closure over the render snapshot `s`, so it reads
`s.search`, `s.page` and `s.notes` even if the handler scheduled new
values for them just before the call; the database argument is the live
handle (already containing any mutation the handler performed). -/
def loadNotesResult (s : AppState) (db : DB) : List Note :=
  let results := dbSearch db s.search limit (s.page * limit)
  if s.page = 0 then results else s.notes ++ results

/-- The search box handler:
`setSearch(text); setPage(0); loadNotes();`. -/
def onChangeText (text : String) (s : AppState) (db : DB) : AppState :=
  { s with search := text, page := 0, notes := loadNotesResult s db }

/-- The list end handler:
`setPage((prev) => prev + 1); loadNotes();`. -/
def onEndReached (s : AppState) (db : DB) : AppState :=
  { s with page := s.page + 1, notes := loadNotesResult s db }

/-- `addNote`: guard `!currentNote.trim()`, `INSERT`, clear the draft,
close the modal, reset the page and reload. -/
def addNote (s : AppState) (db : DB) : AppState × DB :=
  if jsTrim s.currentNote = "" then (s, db)
  else
    let db' := dbInsert db s.currentNote
    ({ s with currentNote := "", modalVisible := false, page := 0,
              notes := loadNotesResult s db' }, db')

/-- `updateNote`: guard `!currentNote.trim() || editingNoteId === null`,
`UPDATE`, close the modal, clear draft and edit target, reset the page
and reload. -/
def updateNote (s : AppState) (db : DB) : AppState × DB :=
  if jsTrim s.currentNote = "" then (s, db)
  else
    match s.editingNoteId with
    | none => (s, db)
    | some i =>
      let db' := dbUpdate db i s.currentNote
      ({ s with modalVisible := false, currentNote := "", editingNoteId := none, page := 0,
                notes := loadNotesResult s db' }, db')

/-- `deleteNote`: guard `deleteNoteId === null`, `DELETE`, close the
confirmation modal, clear the target, reset the page and reload. -/
def deleteNote (s : AppState) (db : DB) : AppState × DB :=
  match s.deleteNoteId with
  | none => (s, db)
  | some i =>
    let db' := dbDelete db i
    ({ s with modalDeleteVisible := false, deleteNoteId := none, page := 0,
              notes := loadNotesResult s db' }, db')

/-- The save button of the add/edit modal:
`onPress={editingNoteId ? updateNote : addNote}`. -/
def savePress (s : AppState) (db : DB) : AppState × DB :=
  if jsTruthy s.editingNoteId then updateNote s db else addNote s db

/-- `openEditModal(note, id)`. -/
def openEditModal (note : String) (i : Nat) (s : AppState) : AppState :=
  { s with currentNote := note, editingNoteId := some i, modalVisible := true }

/-- `openAddModal()`. -/
def openAddModal (s : AppState) : AppState :=
  { s with currentNote := "", editingNoteId := none, modalVisible := true }

/-- The trash icon on a row:
`setDeleteNoteId(item.id); setModalDeleteVisible(true);`. -/
def trashPress (i : Nat) (s : AppState) : AppState :=
  { s with deleteNoteId := some i, modalDeleteVisible := true }

/-- The decline ("Não") button of the delete-confirmation modal:
`setModalDeleteVisible(false)` and nothing else. -/
def declinePress (s : AppState) : AppState :=
  { s with modalDeleteVisible := false }

/-- Gateway operations, for quantifying over operation sequences. -/
inductive Op where
  | create (text : String)
  | update (id : Nat) (text : String)
  | delete (id : Nat)

/-- Run one gateway mutation. -/
def applyOp (db : DB) : Op → DB
  | Op.create t => dbInsert db t
  | Op.update i t => dbUpdate db i t
  | Op.delete i => dbDelete db i

/-- Run a sequence of gateway mutations on the initially empty store. -/
def applyOps (ops : List Op) : DB :=
  ops.foldl applyOp dbEmpty

/-- Modelled from the spec: the claim's abstract account of the store —
"the set of created notes minus the deleted ones, where each surviving
note's text is the value of its most recent create or update".  The map
sends each id to the text of the surviving note with that id (`none` if
absent); `c` counts the ids handed out so far so that a create is
numbered like the store numbers it. -/
def specStep (m : Nat → Option String) (c : Nat) : Op → (Nat → Option String) × Nat
  | Op.create t => (fun j => if j = c then some t else m j, c + 1)
  | Op.update i t => (fun j => if j = i then (m i).map (fun _ => t) else m j, c)
  | Op.delete i => (fun j => if j = i then none else m j, c)

/-- Modelled from the spec: run the abstract account over a whole
operation sequence, starting from the empty map and first id 1. -/
def specRun (ops : List Op) : (Nat → Option String) × Nat :=
  ops.foldl (fun p op => specStep p.1 p.2 op) (fun _ => none, 1)

/-- Modelled from the spec: `t` occurs in `s` as a literal contiguous
substring — `isPrefList t s` says `t` is a literal prefix of `s`. -/
def isPrefList : List Char → List Char → Bool
  | [], _ => true
  | _ :: _, [] => false
  | c :: t, d :: s => c == d && isPrefList t s

/-- Modelled from the spec: `occursIn t s` says `t` occurs somewhere in
`s` as a literal contiguous substring (case-sensitive when used on raw
characters). -/
def occursIn (t : List Char) : List Char → Bool
  | [] => isPrefList t []
  | d :: s => isPrefList t (d :: s) || occursIn t s

/-- A store of 120 notes with ids 1..120, for the pagination scenario. -/
def db120 : DB := ⟨(List.range 120).map (fun k => ⟨k + 1, "n"⟩), 121⟩

/-- A store of 60 notes with ids 1..60, for the end-reached scenario. -/
def db60 : DB := ⟨(List.range 60).map (fun k => ⟨k + 1, "n"⟩), 61⟩

/-- The view state right after the initial load against `db60`:
page 0 of the empty search term is on screen. -/
def s60 : AppState := ⟨dbSearch db60 "" 50 0, "", false, false, "", none, none, 0⟩

/-- A one-note store. -/
def db1 : DB := ⟨[⟨1, "apple"⟩], 2⟩

/-- A view state over `db1` in which the term "apple" is loaded and the
user has already paged once (`currentPage = 1`). -/
def s1 : AppState := ⟨[⟨1, "apple"⟩], "apple", false, false, "", none, none, 1⟩

/-- A closed add dialog over an empty list. -/
def s8 : AppState := ⟨[], "", false, false, "", none, none, 0⟩

/-- An open add dialog whose draft is "  a  " (non-blank after trim). -/
def s9 : AppState := ⟨[], "", true, false, "  a  ", none, none, 0⟩

/-- An open edit dialog whose edit target is id 0 and whose draft is "x". -/
def s10 : AppState := ⟨[], "", true, false, "x", some 0, none, 0⟩

/-! ## Facts about the LIKE matcher -/

/-- A term is wildcard-free when it contains neither `%` nor `_`. -/
def WildcardFree (t : List Char) : Prop := ∀ c ∈ t, c ≠ '%' ∧ c ≠ '_'

instance (t : List Char) : Decidable (WildcardFree t) :=
  inferInstanceAs (Decidable (∀ c ∈ t, c ≠ '%' ∧ c ≠ '_'))

theorem likeM_pct (s : List Char) : likeM ['%'] s = true := by
  induction s with
  | nil => rfl
  | cons d s ih =>
    simp only [likeM, reduceIte, anySuffix] at ih ⊢
    simp [ih]

theorem likeM_empty_pat (s : List Char) : likeM (likePat "") s = true := by
  show likeM ['%', '%'] s = true
  induction s with
  | nil => rfl
  | cons d s ih =>
    simp only [likeM, reduceIte, anySuffix] at ih ⊢
    rw [ih]
    simp [likeM_pct]

theorem likeM_append_pct (t : List Char) (hw : WildcardFree t) (s : List Char) :
    likeM (t ++ ['%']) s = isPrefList (t.map foldChar) (s.map foldChar) := by
  induction t generalizing s with
  | nil => simp [likeM_pct, isPrefList]
  | cons c t ih =>
    have hc1 : c ≠ '%' := (hw c (List.mem_cons_self c t)).1
    have hc2 : (c == '_') = false := beq_eq_false_iff_ne.mpr (hw c (List.mem_cons_self c t)).2
    have hw' : WildcardFree t := fun x hx => hw x (List.mem_cons_of_mem c hx)
    cases s with
    | nil => simp [likeM, hc1, isPrefList]
    | cons d s =>
      simp only [List.cons_append, likeM, if_neg hc1, hc2, Bool.false_or, List.map_cons,
        isPrefList, List.append_eq, ih hw']

theorem likeM_likePat (t : List Char) (hw : WildcardFree t) (s : List Char) :
    likeM ('%' :: (t ++ ['%'])) s = occursIn (t.map foldChar) (s.map foldChar) := by
  induction s with
  | nil =>
    simp only [likeM, reduceIte, anySuffix, occursIn, List.map_nil]
    exact likeM_append_pct t hw []
  | cons d s ih =>
    simp only [likeM, reduceIte, anySuffix, List.map_cons, occursIn] at ih ⊢
    rw [likeM_append_pct t hw (d :: s), ih]
    simp

theorem isPrefList_iff (t s : List Char) :
    isPrefList t s = true ↔ ∃ b, s = t ++ b := by
  induction t generalizing s with
  | nil => simp [isPrefList]
  | cons c t ih =>
    cases s with
    | nil =>
      simp only [isPrefList, List.cons_append]
      constructor
      · intro h; exact absurd h (by simp)
      · rintro ⟨b, hb⟩; exact absurd hb (by simp)
    | cons d s =>
      simp only [isPrefList, Bool.and_eq_true, beq_iff_eq, ih, List.cons_append,
        List.cons.injEq]
      constructor
      · rintro ⟨rfl, b, rfl⟩; exact ⟨b, rfl, rfl⟩
      · rintro ⟨b, rfl, rfl⟩; exact ⟨rfl, b, rfl⟩

theorem occursIn_iff (t s : List Char) :
    occursIn t s = true ↔ ∃ a b, s = a ++ (t ++ b) := by
  induction s with
  | nil =>
    simp only [occursIn, isPrefList_iff]
    constructor
    · rintro ⟨b, hb⟩; exact ⟨[], b, hb⟩
    · rintro ⟨a, b, hab⟩
      rcases List.append_eq_nil.mp hab.symm with ⟨rfl, h2⟩
      exact ⟨b, hab⟩
  | cons d s ih =>
    simp only [occursIn, Bool.or_eq_true, isPrefList_iff, ih]
    constructor
    · rintro (⟨b, hb⟩ | ⟨a, b, hab⟩)
      · exact ⟨[], b, by simpa using hb⟩
      · exact ⟨d :: a, b, by simp [hab]⟩
    · rintro ⟨a, b, hab⟩
      cases a with
      | nil => exact Or.inl ⟨b, by simpa using hab⟩
      | cons x a =>
        right
        have hs : d = x ∧ s = a ++ (t ++ b) := by simpa using hab
        exact ⟨a, b, hs.2⟩

/-! ## Facts about the query pipeline -/

theorem perm_sortDesc (l : List Note) : List.Perm (sortDesc l) l :=
  List.perm_insertionSort rDesc l

theorem length_sortDesc (l : List Note) : (sortDesc l).length = l.length :=
  (perm_sortDesc l).length_eq

theorem mem_sortDesc {a : Note} {l : List Note} : a ∈ sortDesc l ↔ a ∈ l :=
  (perm_sortDesc l).mem_iff

theorem pairwise_sortDesc (l : List Note) : (sortDesc l).Pairwise rDesc :=
  List.sorted_insertionSort rDesc l

/-- With its limit at least the table size, the query returns the whole
sorted match list. -/
theorem dbSearch_full (db : DB) (term : String) (L : Nat) (hL : db.rows.length ≤ L) :
    dbSearch db term L 0 =
      sortDesc (db.rows.filter (fun r => likeM (likePat term) r.note.toList)) := by
  unfold dbSearch
  rw [List.drop_zero, List.take_of_length_le]
  rw [length_sortDesc]
  exact le_trans (List.length_filter_le _ _) hL

/-- Every page is a window of the full sorted match list. -/
theorem dbSearch_window (db : DB) (term : String) (lim off : Nat) :
    dbSearch db term lim off = ((dbSearch db term db.rows.length 0).drop off).take lim := by
  rw [dbSearch_full db term db.rows.length le_rfl]
  rfl

/-- With the empty search term and a limit at least the table size, the
query returns exactly the stored rows (the pattern `%%` matches every
text). -/
theorem mem_dbSearch_empty (db : DB) (L : Nat) (hL : db.rows.length ≤ L) (r : Note) :
    r ∈ dbSearch db "" L 0 ↔ r ∈ db.rows := by
  rw [dbSearch_full db "" L hL,
    List.filter_eq_self.mpr (fun a _ => likeM_empty_pat a.note.toList)]
  exact mem_sortDesc

/-! ## Facts about the mutation statements -/

theorem mem_dbInsert (db : DB) (t : String) (j : Nat) (u : String) :
    (⟨j, u⟩ : Note) ∈ (dbInsert db t).rows ↔
      (⟨j, u⟩ : Note) ∈ db.rows ∨ (j = db.seq ∧ u = t) := by
  simp [dbInsert]

theorem mem_dbUpdate (db : DB) (i : Nat) (t : String) (j : Nat) (u : String) :
    (⟨j, u⟩ : Note) ∈ (dbUpdate db i t).rows ↔
      ((j ≠ i ∧ (⟨j, u⟩ : Note) ∈ db.rows) ∨
        (j = i ∧ u = t ∧ ∃ u₀, (⟨i, u₀⟩ : Note) ∈ db.rows)) := by
  simp only [dbUpdate, List.mem_map]
  constructor
  · rintro ⟨r, hr, hfr⟩
    by_cases hid : r.id = i
    · right
      rw [if_pos hid] at hfr
      obtain ⟨h1, h2⟩ := (by simpa using hfr : r.id = j ∧ t = u)
      refine ⟨by omega, h2.symm, r.note, ?_⟩
      have hr' : (⟨i, r.note⟩ : Note) = r := by
        cases r
        simp_all
      exact hr' ▸ hr
    · left
      rw [if_neg hid] at hfr
      subst hfr
      exact ⟨fun hji => hid (by simpa using hji), hr⟩
  · rintro (⟨hne, hmem⟩ | ⟨rfl, rfl, u₀, hmem⟩)
    · exact ⟨⟨j, u⟩, hmem, by simp [hne]⟩
    · exact ⟨⟨j, u₀⟩, hmem, by simp⟩

theorem mem_dbDelete (db : DB) (i : Nat) (j : Nat) (u : String) :
    (⟨j, u⟩ : Note) ∈ (dbDelete db i).rows ↔
      (⟨j, u⟩ : Note) ∈ db.rows ∧ j ≠ i := by
  simp [dbDelete, List.mem_filter]

theorem dbUpdate_ids (db : DB) (i : Nat) (t : String) :
    (dbUpdate db i t).rows.map Note.id = db.rows.map Note.id := by
  simp only [dbUpdate, List.map_map]
  apply List.map_congr_left
  intro r _
  by_cases h : r.id = i <;> simp [h]

/-- An absent id makes `UPDATE` a no-op. -/
theorem dbUpdate_absent (db : DB) (i : Nat) (t : String)
    (h : i ∉ db.rows.map Note.id) : dbUpdate db i t = db := by
  obtain ⟨rows, seq⟩ := db
  simp only [dbUpdate, DB.mk.injEq, and_true]
  conv_rhs => rw [← List.map_id rows]
  apply List.map_congr_left
  intro r hr
  have : r.id ≠ i := fun hid => h (hid ▸ List.mem_map.mpr ⟨r, hr, rfl⟩)
  simp [this]

/-- An absent id makes `DELETE` a no-op. -/
theorem dbDelete_absent (db : DB) (i : Nat)
    (h : i ∉ db.rows.map Note.id) : dbDelete db i = db := by
  obtain ⟨rows, seq⟩ := db
  simp only [dbDelete, DB.mk.injEq, and_true]
  apply List.filter_eq_self.mpr
  intro r hr
  have : r.id ≠ i := fun hid => h (hid ▸ List.mem_map.mpr ⟨r, hr, rfl⟩)
  simpa using this

/-! ## The store/abstract-map simulation -/

/-- The simulation invariant between the store and the abstract account
of the claim: the sequence counters agree, every stored id is below the
counter, stored ids are unique, and a row is stored exactly when the
abstract map holds its text. -/
def InvP (db : DB) (p : (Nat → Option String) × Nat) : Prop :=
  db.seq = p.2 ∧ (∀ r ∈ db.rows, r.id < db.seq) ∧ (db.rows.map Note.id).Nodup ∧
    ∀ i t, ((⟨i, t⟩ : Note) ∈ db.rows ↔ p.1 i = some t)

theorem invP_applyOp (db : DB) (p : (Nat → Option String) × Nat) (op : Op)
    (h : InvP db p) : InvP (applyOp db op) (specStep p.1 p.2 op) := by
  obtain ⟨hseq, hbound, hnd, hmem⟩ := h
  cases op with
  | create t =>
    refine ⟨?_, ?_, ?_, ?_⟩
    · show db.seq + 1 = p.2 + 1
      rw [hseq]
    · intro r hr
      show r.id < db.seq + 1
      simp only [applyOp, dbInsert, List.mem_append, List.mem_singleton] at hr
      rcases hr with hr | rfl
      · exact Nat.lt_succ_of_lt (hbound r hr)
      · exact Nat.lt_succ_self _
    · show ((db.rows ++ [(⟨db.seq, t⟩ : Note)]).map Note.id).Nodup
      rw [List.map_append, List.nodup_append]
      refine ⟨hnd, by simp, ?_⟩
      intro a ha hb
      rcases List.mem_map.mp ha with ⟨r, hr, rfl⟩
      simp only [List.map_cons, List.map_nil, List.mem_singleton] at hb
      exact absurd (hb ▸ hbound r hr) (lt_irrefl _)
    · intro i u
      rw [show applyOp db (Op.create t) = dbInsert db t from rfl, mem_dbInsert]
      show _ ↔ (if i = p.2 then some t else p.1 i) = some u
      rw [← hseq]
      by_cases hic : i = db.seq
      · subst hic
        have hnot : (⟨db.seq, u⟩ : Note) ∉ db.rows := fun hin => absurd (hbound _ hin) (lt_irrefl _)
        rw [if_pos rfl]
        constructor
        · rintro (hin | ⟨_, rfl⟩)
          · exact absurd hin hnot
          · rfl
        · intro hu
          have : t = u := by injection hu
          exact Or.inr ⟨rfl, this.symm⟩
      · rw [if_neg hic]
        constructor
        · rintro (hin | ⟨hic2, _⟩)
          · exact (hmem i u).mp hin
          · exact absurd hic2 hic
        · intro hu
          exact Or.inl ((hmem i u).mpr hu)
  | update i t =>
    refine ⟨hseq, ?_, ?_, ?_⟩
    · intro r hr
      show r.id < db.seq
      simp only [applyOp, dbUpdate, List.mem_map] at hr
      rcases hr with ⟨r₀, hr₀, rfl⟩
      by_cases hid : r₀.id = i
      · rw [if_pos hid]
        exact hbound r₀ hr₀
      · rw [if_neg hid]
        exact hbound r₀ hr₀
    · show ((dbUpdate db i t).rows.map Note.id).Nodup
      rw [dbUpdate_ids]
      exact hnd
    · intro j u
      rw [show applyOp db (Op.update i t) = dbUpdate db i t from rfl, mem_dbUpdate]
      show _ ↔ (if j = i then (p.1 i).map (fun _ => t) else p.1 j) = some u
      by_cases hji : j = i
      · subst hji
        rw [if_pos rfl]
        constructor
        · rintro (⟨hne, _⟩ | ⟨_, rfl, u₀, hmem₀⟩)
          · exact absurd rfl hne
          · rw [(hmem j u₀).mp hmem₀]
            rfl
        · intro hu
          cases hmi : p.1 j with
          | none =>
            rw [hmi] at hu
            simp at hu
          | some u₀ =>
            rw [hmi] at hu
            simp only [Option.map_some'] at hu
            have ht : t = u := by injection hu
            exact Or.inr ⟨rfl, ht.symm, u₀, (hmem j u₀).mpr hmi⟩
      · rw [if_neg hji]
        constructor
        · rintro (⟨_, hmem₀⟩ | ⟨hji2, _, _⟩)
          · exact (hmem j u).mp hmem₀
          · exact absurd hji2 hji
        · intro hu
          exact Or.inl ⟨hji, (hmem j u).mpr hu⟩
  | delete i =>
    refine ⟨hseq, ?_, ?_, ?_⟩
    · intro r hr
      show r.id < db.seq
      simp only [applyOp, dbDelete, List.mem_filter] at hr
      exact hbound r hr.1
    · show ((dbDelete db i).rows.map Note.id).Nodup
      exact hnd.sublist (List.Sublist.map Note.id (List.filter_sublist _))
    · intro j u
      rw [show applyOp db (Op.delete i) = dbDelete db i from rfl, mem_dbDelete]
      show _ ↔ (if j = i then none else p.1 j) = some u
      by_cases hji : j = i
      · subst hji
        rw [if_pos rfl]
        simp
      · rw [if_neg hji]
        constructor
        · rintro ⟨hmem₀, _⟩
          exact (hmem j u).mp hmem₀
        · intro hu
          exact ⟨(hmem j u).mpr hu, hji⟩

theorem invP_foldl (ops : List Op) :
    ∀ db p, InvP db p →
      InvP (ops.foldl applyOp db) (ops.foldl (fun q op => specStep q.1 q.2 op) p) := by
  induction ops with
  | nil => intro db p h; exact h
  | cons op ops ih => intro db p h; exact ih _ _ (invP_applyOp db p op h)

theorem invP_run (ops : List Op) : InvP (applyOps ops) (specRun ops) := by
  apply invP_foldl
  refine ⟨rfl, ?_, ?_, ?_⟩
  · intro r hr; exact absurd hr (List.not_mem_nil r)
  · simp [dbEmpty]
  · intro i t; simp [dbEmpty]

/-! ## The claims -/

set_option maxRecDepth 4000

/-- C1: the claim says the end-reached trigger fetches the page with
index `currentPage + 1` (offset `(currentPage+1) * 50`) for the unchanged
term, appends the rows to `visibleNotes`, and increments `currentPage`.
The code increments the page state but calls the `loadNotes` closure of
the current render, which still reads `page = currentPage`: with
`currentPage = 0` over a 60-row store it re-fetches offset 0 and
*replaces* the list with page 0 again, so the list stays exactly `s60.notes`,
while the claimed behaviour (appending the offset-50 rows) would have
changed it. -/
theorem onEndReached_stale_closure :
    (onEndReached s60 db60).page = 1
    ∧ (onEndReached s60 db60).notes = s60.notes
    ∧ s60.notes ++ dbSearch db60 "" 50 ((0 + 1) * 50) ≠ s60.notes := by decide

/-- C2: the claim says a search-term change resets `currentPage` to 0 and
replaces `visibleNotes` with the page-0 rows of the *new* term.  The code
does set `page` to 0 and `search` to the new term, but the `loadNotes`
closure it calls reads the *old* term and the *old* page: from the state
`s1` (term "apple", page 1, one "apple" row visible) typing "b" leaves
the "apple" row on screen even though page 0 for "b" is empty. -/
theorem onChangeText_stale_closure :
    (onChangeText "b" s1 db1).search = "b"
    ∧ (onChangeText "b" s1 db1).page = 0
    ∧ (onChangeText "b" s1 db1).notes = [⟨1, "apple"⟩]
    ∧ dbSearch db1 "b" 50 0 = [] := by decide

/-- C3: for every sequence of create/update/delete operations on the
initially empty store, `search("", L, 0)` with `L` at least the number of
live rows holds a note `⟨i, t⟩` exactly when the abstract account of the
claim (created minus deleted, text of the most recent create or update)
maps `i` to `t`. -/
theorem dbSearch_reflects_ops (ops : List Op) (L : Nat)
    (hL : (applyOps ops).rows.length ≤ L) (i : Nat) (t : String) :
    ((⟨i, t⟩ : Note) ∈ dbSearch (applyOps ops) "" L 0 ↔ (specRun ops).1 i = some t) := by
  rw [mem_dbSearch_empty _ _ hL]
  exact (invP_run ops).2.2.2 i t

theorem dbSearch_reflects_ops_witness :
    (⟨1, "c"⟩ : Note) ∈
      dbSearch (applyOps [Op.create "a", Op.create "b", Op.update 1 "c", Op.delete 2]) "" 1 0 :=
  (dbSearch_reflects_ops [Op.create "a", Op.create "b", Op.update 1 "c", Op.delete 2] 1
    (by decide) 1 "c").mpr (by decide)

/-- C4: `search` returns rows ordered by id strictly descending, returns
at most `limit` rows, every page is the `offset`-drop/`limit`-take window
of the full sorted match list (so consecutive pages have no gaps and no
overlaps), the empty term matches every stored note, and concretely with
120 notes and limit 50 pages 0, 1, 2 have 50, 50, 20 rows whose
concatenation is duplicate-free and equals `search("", 120, 0)`. -/
theorem dbSearch_pagination (db : DB) (term : String) (lim off : Nat)
    (hnd : (db.rows.map Note.id).Nodup) :
    ((dbSearch db term lim off).map Note.id).Pairwise (· > ·)
    ∧ (dbSearch db term lim off).length ≤ lim
    ∧ dbSearch db term lim off = ((dbSearch db term db.rows.length 0).drop off).take lim
    ∧ (∀ r ∈ db.rows, r ∈ dbSearch db "" db.rows.length 0)
    ∧ (dbSearch db120 "" 50 0).length = 50
    ∧ (dbSearch db120 "" 50 50).length = 50
    ∧ (dbSearch db120 "" 50 100).length = 20
    ∧ dbSearch db120 "" 50 0 ++ dbSearch db120 "" 50 50 ++ dbSearch db120 "" 50 100
        = dbSearch db120 "" 120 0
    ∧ ((dbSearch db120 "" 50 0 ++ dbSearch db120 "" 50 50 ++ dbSearch db120 "" 50 100).map
        Note.id).Nodup := by
  refine ⟨?_, List.length_take_le _ _, dbSearch_window db term lim off,
    fun r hr => (mem_dbSearch_empty db _ le_rfl r).mpr hr,
    by decide, by decide, by decide, by decide, by decide⟩
  set F := db.rows.filter (fun r => likeM (likePat term) r.note.toList) with hF
  have hsub : List.Sublist (dbSearch db term lim off) (sortDesc F) :=
    (List.take_sublist _ _).trans (List.drop_sublist _ _)
  have hndF : (F.map Note.id).Nodup :=
    hnd.sublist (List.Sublist.map Note.id (List.filter_sublist _))
  have hndS : ((sortDesc F).map Note.id).Pairwise (· ≠ ·) :=
    ((perm_sortDesc F).map Note.id).nodup_iff.mpr hndF
  have hne : (sortDesc F).Pairwise (fun a b => a.id ≠ b.id) := List.pairwise_map.mp hndS
  have hle : (sortDesc F).Pairwise rDesc := pairwise_sortDesc F
  have hstrict : (sortDesc F).Pairwise (fun a b => b.id < a.id) :=
    (hle.and hne).imp (fun h => lt_of_le_of_ne h.1 (Ne.symm h.2))
  exact List.pairwise_map.mpr (List.Pairwise.sublist hsub hstrict)

theorem dbSearch_pagination_witness :
    ((dbSearch db120 "" 50 50).map Note.id).Pairwise (· > ·)
    ∧ (dbSearch db120 "" 50 50).length ≤ 50 := by
  have h := dbSearch_pagination db120 "" 50 50 (by decide)
  exact ⟨h.1, h.2.1⟩

/-- C5 counterexample: the claim says a note is returned iff the term
occurs in its text as a *case-sensitive* literal substring.  With the
single stored note "A" and term "a", the query returns the note (SQLite
`LIKE` folds ASCII case), yet "a" is not a case-sensitive substring
of "A". -/
theorem like_case_fold_counterexample :
    (⟨1, "A"⟩ : Note) ∈ dbSearch ⟨[⟨1, "A"⟩], 2⟩ "a" 50 0
    ∧ ¬ ∃ a b, "A".toList = a ++ ("a".toList ++ b) := by
  refine ⟨by decide, ?_⟩
  intro h
  exact absurd ((occursIn_iff "a".toList "A".toList).mpr h) (by decide)

/-- C5 amended: for a term free of the wildcards `%` and `_`, a stored
note is returned by `search(term, L, 0)` (with `L` at least the table
size) iff the term occurs in its text as a literal substring *up to
ASCII case folding*; wildcard characters in the term are passed through
unescaped and act as wildcards. -/
theorem dbSearch_like_substring (t : String) (hw : WildcardFree t.toList)
    (db : DB) (L : Nat) (hL : db.rows.length ≤ L) (r : Note) :
    (r ∈ dbSearch db t L 0 ↔
      r ∈ db.rows ∧ occursIn (t.toList.map foldChar) (r.note.toList.map foldChar) = true) := by
  rw [dbSearch_full db t L hL, mem_sortDesc, List.mem_filter]
  have heq : likeM (likePat t) r.note.toList
      = occursIn (t.toList.map foldChar) (r.note.toList.map foldChar) :=
    likeM_likePat t.toList hw r.note.toList
  rw [heq]

theorem dbSearch_like_substring_witness :
    (⟨1, "Call Alice"⟩ : Note) ∈ dbSearch ⟨[⟨1, "Call Alice"⟩], 2⟩ "al" 1 0 :=
  (dbSearch_like_substring "al" (by decide) ⟨[⟨1, "Call Alice"⟩], 2⟩ 1 (by decide)
    ⟨1, "Call Alice"⟩).mpr ⟨by decide, by decide⟩

/-- C6: tapping save while the draft trims to the empty string is a
complete no-op, whichever branch the save button dispatches to: the
store, the dialog visibility and the draft are all unchanged. -/
theorem savePress_blank_noop (s : AppState) (db : DB) (h : jsTrim s.currentNote = "") :
    savePress s db = (s, db) := by
  simp [savePress, addNote, updateNote, h]

theorem savePress_blank_noop_witness :
    savePress ⟨[], "", true, false, "  ", none, none, 0⟩ dbEmpty
      = (⟨[], "", true, false, "  ", none, none, 0⟩, dbEmpty) :=
  savePress_blank_noop _ dbEmpty (by decide)

/-- C7: `UPDATE` and `DELETE` on an absent id are total no-ops (the
functions are total, so no error is raised and the store is returned
unchanged); on a present id `UPDATE` rewrites exactly the text of that
row and `DELETE` removes exactly that row, leaving all other rows as
they were. -/
theorem update_delete_semantics (db : DB) (i : Nat) (t : String) :
    (i ∉ db.rows.map Note.id → dbUpdate db i t = db ∧ dbDelete db i = db)
    ∧ (∀ j u, ((⟨j, u⟩ : Note) ∈ (dbUpdate db i t).rows ↔
        ((j ≠ i ∧ (⟨j, u⟩ : Note) ∈ db.rows) ∨
          (j = i ∧ u = t ∧ ∃ u₀, (⟨i, u₀⟩ : Note) ∈ db.rows))))
    ∧ (∀ j u, ((⟨j, u⟩ : Note) ∈ (dbDelete db i).rows ↔
        ((⟨j, u⟩ : Note) ∈ db.rows ∧ j ≠ i))) :=
  ⟨fun h => ⟨dbUpdate_absent db i t h, dbDelete_absent db i h⟩,
   fun j u => mem_dbUpdate db i t j u,
   fun j u => mem_dbDelete db i j u⟩

theorem update_delete_semantics_witness :
    dbUpdate ⟨[⟨1, "a"⟩], 2⟩ 2 "x" = ⟨[⟨1, "a"⟩], 2⟩
    ∧ dbDelete ⟨[⟨1, "a"⟩], 2⟩ 2 = ⟨[⟨1, "a"⟩], 2⟩ :=
  (update_delete_semantics ⟨[⟨1, "a"⟩], 2⟩ 2 "x").1 (by decide)

/-- C8 counterexample: the claim says `deleteTarget` is absent whenever
the delete-confirmation dialog is closed.  After opening the dialog on
note 5 and declining, the dialog is closed but `deleteNoteId` is still
`some 5`: the decline button only clears the visibility flag. -/
theorem decline_keeps_deleteTarget :
    (declinePress (trashPress 5 s8)).modalDeleteVisible = false
    ∧ (declinePress (trashPress 5 s8)).deleteNoteId ≠ none := by decide

/-- C8 amended: declining the delete confirmation closes the dialog and
touches nothing else: the store is not consulted (`declinePress` does
not take the database) and every other view-state field, including
`deleteNoteId`, keeps its value; the stale target is only overwritten by
the next trash tap or cleared by a confirmed delete. -/
theorem declinePress_frame (s : AppState) :
    (declinePress s).modalDeleteVisible = false
    ∧ (declinePress s).notes = s.notes
    ∧ (declinePress s).search = s.search
    ∧ (declinePress s).modalVisible = s.modalVisible
    ∧ (declinePress s).currentNote = s.currentNote
    ∧ (declinePress s).editingNoteId = s.editingNoteId
    ∧ (declinePress s).deleteNoteId = s.deleteNoteId
    ∧ (declinePress s).page = s.page :=
  ⟨rfl, rfl, rfl, rfl, rfl, rfl, rfl, rfl⟩

/-- C9: a successful save of a *new* note (non-blank draft, no edit
target) inserts the draft text verbatim — untrimmed — and the inserted
row is returned by a subsequent big-limit empty search. -/
theorem savePress_new_verbatim (s : AppState) (db : DB)
    (h1 : jsTrim s.currentNote ≠ "") (h2 : s.editingNoteId = none) :
    (savePress s db).2.rows = db.rows ++ [⟨db.seq, s.currentNote⟩]
    ∧ (⟨db.seq, s.currentNote⟩ : Note) ∈
        dbSearch (savePress s db).2 "" (savePress s db).2.rows.length 0 := by
  have hdb : (savePress s db).2 = dbInsert db s.currentNote := by
    unfold savePress
    rw [h2]
    show (addNote s db).2 = _
    unfold addNote
    rw [if_neg h1]
  refine ⟨by rw [hdb]; rfl, ?_⟩
  rw [hdb]
  exact (mem_dbSearch_empty _ _ le_rfl _).mpr (by simp [dbInsert])

theorem savePress_new_verbatim_witness :
    (savePress s9 dbEmpty).2.rows = dbEmpty.rows ++ [⟨dbEmpty.seq, s9.currentNote⟩]
    ∧ (⟨dbEmpty.seq, s9.currentNote⟩ : Note) ∈
        dbSearch (savePress s9 dbEmpty).2 "" (savePress s9 dbEmpty).2.rows.length 0 :=
  savePress_new_verbatim s9 dbEmpty (by decide) rfl

/-- C10: the save button dispatches to the update path exactly when
`editingNoteId` is non-null and nonzero (JavaScript truthiness); with
`editingNoteId = some 0` and a non-blank draft, the save *inserts* a new
row instead of updating, so correct routing relies on the store never
assigning id 0. -/
theorem savePress_dispatch (s : AppState) (db : DB) :
    (s.editingNoteId = none → savePress s db = addNote s db)
    ∧ (∀ n, s.editingNoteId = some n → n ≠ 0 → savePress s db = updateNote s db)
    ∧ (s.editingNoteId = some 0 → savePress s db = addNote s db)
    ∧ (s.editingNoteId = some 0 → jsTrim s.currentNote ≠ "" →
        (savePress s db).2.rows.length = db.rows.length + 1) := by
  refine ⟨?_, ?_, ?_, ?_⟩
  · intro h
    simp [savePress, h, jsTruthy]
  · intro n hn hn0
    simp [savePress, hn, jsTruthy, hn0]
  · intro h
    simp [savePress, h, jsTruthy]
  · intro h0 h1
    have hd : savePress s db = addNote s db := by simp [savePress, h0, jsTruthy]
    rw [hd]
    unfold addNote
    rw [if_neg h1]
    simp [dbInsert]

theorem savePress_dispatch_witness :
    savePress s10 dbEmpty = addNote s10 dbEmpty
    ∧ (savePress s10 dbEmpty).2.rows.length = dbEmpty.rows.length + 1 :=
  ⟨(savePress_dispatch s10 dbEmpty).2.2.1 rfl,
   (savePress_dispatch s10 dbEmpty).2.2.2 rfl (by decide)⟩
